import Mathlib

set_option linter.unusedVariables false

/-!
Verification of the Pipsqueak audio core (mixer, sampler voice, sampler,
audio buffer, engine stream lifecycle) against its natural-language
specification.  The C++ sources are shallowly embedded: `float`/`double`
sample arithmetic is modelled exactly over `ℚ` (the claims under study are
algebraic identities that hold exactly in the source expressions), the
interleaved `std::vector<float>` storage is a `List ℚ`, and the real-valued
pitch formula built from `std::pow` is modelled over `ℝ`.
-/

namespace Pipsqueak

/-- A sample value (C++ `float`, modelled exactly over `ℚ`). -/
abbrev Sample := ℚ

/-! ### AudioBuffer

Embeds `pipsqueak::core::AudioBuffer` (src/src/core/audio_buffer.cpp):
interleaved storage, the sample for channel `c` at frame `f` lives at index
`f * numChannels + c`.  The raw-span access path of `ChannelView::raw()`
(`ptr = dataPtr + c`, element `i` at `ptr[i * stride]`, `stride =
numChannels`) reads and writes the same indices and is embedded as `rawAt`
and `rawAddAt`. -/

structure AudioBuffer where
  numChannels : ℕ
  numFrames : ℕ
  data : List Sample
  deriving Repr, DecidableEq

/-- `AudioBuffer::AudioBuffer(numChannels, numFrames)`: value-initialized
(zero-filled) storage of `numChannels * numFrames` samples.  The constructor
in the source performs no validation of its arguments. -/
def AudioBuffer.new (numChannels numFrames : ℕ) : AudioBuffer :=
  ⟨numChannels, numFrames, List.replicate (numChannels * numFrames) 0⟩

/-- Unchecked strided read: `RawSpan::at(i)` on channel `c` is
`data[i * numChannels + c]` (out-of-range reads, UB in C++, default to 0;
the claims only exercise in-range reads). -/
def AudioBuffer.rawAt (b : AudioBuffer) (c i : ℕ) : Sample :=
  b.data.getD (i * b.numChannels + c) 0

/-- Unchecked strided additive write: `span.at(f) += v` on channel `c`. -/
def AudioBuffer.rawAddAt (b : AudioBuffer) (c f : ℕ) (v : Sample) : AudioBuffer :=
  let idx := f * b.numChannels + c
  { b with data := b.data.set idx (b.data.getD idx 0 + v) }

/-- Error kind raised by bounds-checked access (`std::out_of_range`). -/
inductive BufferError where
  | outOfRange
  deriving Repr, DecidableEq

/-- `AudioBuffer::at(channelNum, frameNum)`: bounds-checked element access;
throws `std::out_of_range` iff `channelNum >= numChannels_ || frameNum >=
numFrames_`, otherwise returns `data_[frameNum * numChannels_ + channelNum]`.
The C++ member is `const` on the read path and mutates nothing, so the
embedding is a pure function of the buffer. -/
def AudioBuffer.at (b : AudioBuffer) (channelNum frameNum : ℕ) :
    Except BufferError Sample :=
  if b.numChannels ≤ channelNum ∨ b.numFrames ≤ frameNum then
    .error .outOfRange
  else
    .ok (b.data.getD (frameNum * b.numChannels + channelNum) 0)

/-! ### AudioSource and Mixer

Embeds `pipsqueak::dsp::Mixer` (src/src/engine/engine.cpp, third revision:
the `pipsqueak::dsp` mixer).  The mixer holds an atomically-swappable
snapshot: an ordered `std::vector<std::shared_ptr<AudioSource>>`.  A single-
thread execution of the control and audio operations is embedded: the
snapshot is the `List` of sources, `addSource` copies and appends
(`push_back`), `clearSources` installs the empty list, `process` iterates
the snapshot in order calling each child `process`, and `isFinished` is
`std::all_of` over the snapshot.  An `AudioSource` is its `process`
capability (a buffer transformer) together with its observed `isFinished`
answer at the moment of the call. -/

structure AudioSource where
  process : AudioBuffer → AudioBuffer
  isFinished : Bool

structure Mixer where
  activeSources : List AudioSource

/-- `Mixer::Mixer()`: initializes with a valid, empty list of sources. -/
def Mixer.new : Mixer := ⟨[]⟩

/-- `Mixer::addSource`: copy the current snapshot, `push_back` the new
source, publish the copy. -/
def Mixer.addSource (m : Mixer) (s : AudioSource) : Mixer :=
  ⟨m.activeSources ++ [s]⟩

/-- `Mixer::clearSources`: publish a new, completely empty list. -/
def Mixer.clearSources (_m : Mixer) : Mixer := ⟨[]⟩

/-- `Mixer::isFinished`: `std::all_of` children `isFinished`. -/
def Mixer.isFinished (m : Mixer) : Bool :=
  m.activeSources.all (fun s => s.isFinished)

/-- `Mixer::process`: iterate the snapshot in order, letting each source
`process` (mix into) the buffer; the mixer itself never writes the buffer. -/
def Mixer.process (m : Mixer) (buffer : AudioBuffer) : AudioBuffer :=
  m.activeSources.foldl (fun b s => s.process b) buffer

/-- A test source whose `process` adds the constant `a` to every stored
sample of the output buffer (the add-a-constant sources of the claim). -/
def constAddSource (a : Sample) : AudioSource :=
  ⟨fun b => { b with data := b.data.map (fun x => x + a) }, false⟩


/-! ### SamplerVoice

Embeds `pipsqueak::dsp::SamplerVoice` (src/unnamed/part_005, header
src/include/pipsqueak/dsp/sampler_voice.hpp).  Field defaults mirror the
in-class initializers.  `std::pow(2.0, x)` is real-valued and in general
irrational, so the power factor `pitchScale` computed inside `start` enters
the rational operational model as an explicit parameter; the real-valued
formula itself is embedded separately as `stepFormula` below.  The claims
under study only exercise configurations whose pitch scale is `1`
(`note == rootNote`, `tuneCents == 0`). -/

structure SamplerVoice where
  sample : Option AudioBuffer := none
  srcChannels : ℕ := 0
  numFrames : ℕ := 0
  lastIndex : ℕ := 0
  nativeRate : ℚ := 0
  engineRate : ℚ := 0
  phase : ℚ := 0
  step : ℚ := 1
  active : Bool := false
  gain : ℚ := 0
  deriving Repr, DecidableEq

/-- `SamplerVoice::configure`: cache the sample handle, the rates, and the
derived `srcChannels`, `numFrames`, `lastIndex = numFrames ? numFrames - 1 :
0` (or zeros when the handle is null).  Note that `configure` does not touch
`active_`. -/
def SamplerVoice.configure (v : SamplerVoice) (sample : Option AudioBuffer)
    (nativeRate engineRate : ℚ) : SamplerVoice :=
  match sample with
  | some s =>
    { v with
      sample := some s
      nativeRate := nativeRate
      engineRate := engineRate
      srcChannels := s.numChannels
      numFrames := s.numFrames
      lastIndex := if s.numFrames ≠ 0 then s.numFrames - 1 else 0 }
  | none =>
    { v with
      sample := none
      nativeRate := nativeRate
      engineRate := engineRate
      srcChannels := 0
      numFrames := 0
      lastIndex := 0 }

/-- `SamplerVoice::start(note, velocity, rootNote, tuneCents)`: reject
(become inert) when the sample is null, has fewer than 2 frames, or either
rate is non-positive; otherwise set `step = (nativeRate / engineRate) *
pitchScale`, `phase = 0`, `gain = clamp(velocity, 0, 1)` and `active = (step
> 0)`.  `pitchScale` stands for `pow(2, (note - rootNote)/12) * pow(2,
tuneCents/1200)` (see `stepFormula`). -/
def SamplerVoice.start (v : SamplerVoice) (note : ℤ) (velocity : ℚ)
    (rootNote : ℤ) (tuneCents : ℚ) (pitchScale : ℚ) : SamplerVoice :=
  if v.sample = none ∨ v.numFrames < 2 ∨ v.nativeRate ≤ 0 ∨ v.engineRate ≤ 0 then
    { v with active := false }
  else
    let stepVal := v.nativeRate / v.engineRate * pitchScale
    { v with
      step := stepVal
      phase := 0
      gain := if velocity < 0 then 0 else if 1 < velocity then 1 else velocity
      active := decide (0 < stepVal) }

/-- The real-valued step computed by `SamplerVoice::start` at a valid
configuration: `step = (native_rate / engine_rate) * 2^((note -
root_note)/12) * 2^(tune_cents/1200)` (sampler_voice.cpp lines 33-36). -/
noncomputable def SamplerVoice.stepFormula (nativeRate engineRate : ℝ)
    (note rootNote : ℤ) (tuneCents : ℝ) : ℝ :=
  nativeRate / engineRate *
    ((2 : ℝ) ^ (((note : ℝ) - (rootNote : ℝ)) / 12) *
      (2 : ℝ) ^ (tuneCents / 1200))

/-- `SamplerVoice::finished()`: `!active_`. -/
def SamplerVoice.finished (v : SamplerVoice) : Bool := !v.active

/-- The check after the render loop: if `phase >= lastIndex` the voice is
finished (`active = false`). -/
def SamplerVoice.postCheck (v : SamplerVoice) : SamplerVoice :=
  if (v.lastIndex : ℚ) ≤ v.phase then { v with active := false } else v

/-- The per-channel linear interpolation of `SamplerVoice::render`: at
`i == lastIndex` read `src[lastIndex]` without interpolating past the end,
otherwise `x0 + (x1 - x0) * frac`. -/
def interpAt (src : AudioBuffer) (c i lastIndex : ℕ) (frac : ℚ) : Sample :=
  if i = lastIndex then src.rawAt c i
  else src.rawAt c i + (src.rawAt c (i + 1) - src.rawAt c i) * frac

/-- The mono body `for (c = 0; c < outCh; ++c) outSpans[c].at(f) += x`:
adds the same value into channels `0, …, count-1` at frame `f`. -/
def addChannels (b : AudioBuffer) (f : ℕ) (x : Sample) : ℕ → AudioBuffer
  | 0 => b
  | c + 1 => (addChannels b f x c).rawAddAt c f x

/-- The multi-channel body: for channels `0, …, count-1`, interpolate in
source channel `c` and add `gain * s` into output channel `c` at frame
`f`. -/
def addMultiChannels (src : AudioBuffer) (b : AudioBuffer) (f : ℕ)
    (gain : ℚ) (i lastIndex : ℕ) (frac : ℚ) : ℕ → AudioBuffer
  | 0 => b
  | c + 1 =>
    (addMultiChannels src b f gain i lastIndex frac c).rawAddAt c f
      (gain * interpAt src c i lastIndex frac)

/-- The per-frame render loop of `SamplerVoice::render`.  `f` is the output
frame the next iteration writes, the last argument the remaining frame
count.  Each iteration: `i = floor(phase)` (C++ `static_cast<size_t>` on a
non-negative `double`); stop finished when `i > lastIndex`; otherwise mix
the interpolated frame additively and advance `phase` by `step`.  The
post-loop finished check runs on every exit path, as in the source, where
falling out of the loop (by count or by `break`) reaches it. -/
def SamplerVoice.renderLoop (src : AudioBuffer) :
    SamplerVoice → AudioBuffer → ℕ → ℕ → SamplerVoice × AudioBuffer
  | v, out, _, 0 => (v.postCheck, out)
  | v, out, f, r + 1 =>
    let i := (Int.floor v.phase).toNat
    if v.lastIndex < i then (({ v with active := false }).postCheck, out)
    else
      let frac := v.phase - (i : ℚ)
      let out2 :=
        if v.srcChannels = 1 then
          addChannels out f (v.gain * interpAt src 0 i v.lastIndex frac)
            out.numChannels
        else
          addMultiChannels src out f v.gain i v.lastIndex frac
            (min out.numChannels v.srcChannels)
      SamplerVoice.renderLoop src { v with phase := v.phase + v.step } out2
        (f + 1) r

/-- `SamplerVoice::render(out, framesToRender)`: bail out (unchanged) when
inactive, the sample handle is null, or there is nothing to render; stop
the voice when the output or the source has zero channels; otherwise run
the per-frame loop. -/
def SamplerVoice.render (v : SamplerVoice) (out : AudioBuffer)
    (framesToRender : ℕ) : SamplerVoice × AudioBuffer :=
  match v.sample with
  | none => (v, out)
  | some src =>
    if v.active = false ∨ framesToRender = 0 then (v, out)
    else if out.numChannels = 0 ∨ v.srcChannels = 0 then
      ({ v with active := false }, out)
    else SamplerVoice.renderLoop src v out 0 framesToRender

/-! ### Sampler

Embeds `pipsqueak::dsp::Sampler` (src/src/dsp/sampler.cpp).  Only the state
and `noteOn` are needed by the claims. -/

structure Sampler where
  sampleData : Option AudioBuffer
  engineRate : ℚ
  nativeRate : ℚ
  rootNote : ℤ
  tuneCents : ℚ
  maxPolyphony : ℕ
  voices : List SamplerVoice
  deriving Repr, DecidableEq

/-- `Sampler::Sampler(sampleData)`: rates 44100/48000, root note 48, tune 0,
polyphony 1, voices resized and each configured with the shared sample. -/
def Sampler.new (sampleData : Option AudioBuffer) : Sampler :=
  { sampleData := sampleData
    engineRate := 48000
    nativeRate := 44100
    rootNote := 48
    tuneCents := 0
    maxPolyphony := 1
    voices := (List.replicate 1 ({} : SamplerVoice)).map
      (fun v => v.configure sampleData 44100 48000) }

/-- The first loop of `Sampler::noteOn`: scan the voices in order; start the
first voice whose `finished()` is true, returning `none` when no voice is
free. -/
def noteOnScan (note : ℤ) (velocity : ℚ) (rootNote : ℤ) (tuneCents : ℚ)
    (pitchScale : ℚ) : List SamplerVoice → Option (List SamplerVoice)
  | [] => none
  | v :: rest =>
    if v.finished = true then
      some (v.start note velocity rootNote tuneCents pitchScale :: rest)
    else
      (noteOnScan note velocity rootNote tuneCents pitchScale rest).map
        (fun l => v :: l)

/-- `Sampler::noteOn(note, velocity)`: reuse the first finished voice,
started with the recorded `rootNote_` and `tuneCents_`; when none is free,
steal voice 0 (if any voice exists).  As with `SamplerVoice.start`,
`pitchScale` carries the real-valued power factor. -/
def Sampler.noteOn (s : Sampler) (note : ℤ) (velocity : ℚ)
    (pitchScale : ℚ) : Sampler :=
  match noteOnScan note velocity s.rootNote s.tuneCents pitchScale s.voices with
  | some vs => { s with voices := vs }
  | none =>
    match s.voices with
    | [] => s
    | v0 :: rest =>
      { s with voices :=
          v0.start note velocity s.rootNote s.tuneCents pitchScale :: rest }

/-! ### Claim C9 (AudioEngine::stopStream)

The underlying RtAudio stream is modelled by its observable flags
`isStreamOpen` / `isStreamRunning` (running implies open in RtAudio, but the
model leaves the state space full; all reachable states are covered). -/

structure StreamState where
  isOpen : Bool
  isRunning : Bool
  deriving Repr, DecidableEq

/-- `AudioEngine::stopStream` (engine.cpp, the `void` overload at the cited
lines): returns immediately when `isRunning()` is false; otherwise calls
`audio_->stopStream()` if the stream is running, then `closeStream()` if the
stream is open. -/
def stopStream (s : StreamState) : StreamState :=
  if !s.isRunning then s
  else
    let s1 := if s.isRunning then { s with isRunning := false } else s
    if s1.isOpen then { s1 with isOpen := false } else s1


/-! ### Concrete test fixtures used by witnesses and counterexamples -/

/-- A mono source buffer of `n` frames holding the constant value `s`. -/
def monoConst (s : Sample) (n : ℕ) : AudioBuffer := ⟨1, n, List.replicate n s⟩

/-- A voice configured with a valid two-frame constant-1 mono sample at
equal 48 kHz rates, then started at the root note: it is actively playing
with `step = 1`. -/
def playingVoice : SamplerVoice :=
  (SamplerVoice.configure {} (some (monoConst 1 2)) 48000 48000).start
    48 1 48 0 1


/-- A two-voice sampler state for exercising the `noteOn` allocation policy:
voice 0 is busy (`active`), voice 1 is free (`finished()` true). -/
def testSampler : Sampler :=
  { sampleData := none
    engineRate := 48000
    nativeRate := 44100
    rootNote := 48
    tuneCents := 0
    maxPolyphony := 2
    voices := [{ active := true }, {}] }


/-! ## Theorems -/

/-! ### List access helper lemmas (for `std::vector` reads and writes) -/

/-- Reading a replicated list inside its range yields the replicated value. -/
theorem getD_replicate_lt (x d : Sample) {n i : ℕ} (h : i < n) :
    (List.replicate n x).getD i d = x := by
  induction n generalizing i with
  | zero => omega
  | succ m ih =>
    cases i with
    | zero => rfl
    | succ j => simpa [List.replicate_succ] using ih (show j < m by omega)

/-- Reading a replicated list outside its range yields the default. -/
theorem getD_replicate_ge (x d : Sample) {n i : ℕ} (h : n ≤ i) :
    (List.replicate n x).getD i d = d := by
  induction n generalizing i with
  | zero => cases i <;> rfl
  | succ m ih =>
    cases i with
    | zero => omega
    | succ j => simpa [List.replicate_succ] using ih (show m ≤ j by omega)

/-- Reading a mapped list inside its range maps the value read. -/
theorem getD_map_lt (g : Sample → Sample) (d : Sample) {l : List Sample} {i : ℕ}
    (h : i < l.length) : (l.map g).getD i d = g (l.getD i d) := by
  induction l generalizing i with
  | nil => simp at h
  | cons a t ih =>
    cases i with
    | zero => rfl
    | succ j => exact ih (show j < t.length by simpa using h)

/-- Writing and then reading the same in-range position yields the new value. -/
theorem getD_set_eq (d a : Sample) {l : List Sample} {n : ℕ}
    (h : n < l.length) : (l.set n a).getD n d = a := by
  induction l generalizing n with
  | nil => simp at h
  | cons b t ih =>
    cases n with
    | zero => rfl
    | succ m => exact ih (show m < t.length by simpa using h)

/-- Writing one position leaves reads at any other position unchanged. -/
theorem getD_set_ne (d a : Sample) {l : List Sample} {m n : ℕ}
    (h : m ≠ n) : (l.set m a).getD n d = l.getD n d := by
  induction l generalizing m n with
  | nil => rfl
  | cons b t ih =>
    cases m with
    | zero => cases n with
      | zero => omega
      | succ j => rfl
    | succ k =>
      cases n with
      | zero => rfl
      | succ j => exact ih (show k ≠ j by omega)

/-- An out-of-range `set` (like an out-of-range vector write) is a no-op
on the functional model.  (The claims only exercise in-range writes.) -/
theorem set_of_length_le {l : List Sample} {n : ℕ} (a : Sample)
    (h : l.length ≤ n) : l.set n a = l := by
  induction l generalizing n with
  | nil => rfl
  | cons b t ih =>
    cases n with
    | zero => simp only [List.length_cons] at h; omega
    | succ m =>
      have : t.set m a = t := ih (show t.length ≤ m by simpa using h)
      simp [List.set, this]

/-- Interleaved index arithmetic: with both channel indices below the channel
count, two interleaved indices coincide only at the same (channel, frame). -/
theorem interleaved_index_inj {ch c c2 f f2 : ℕ} (hc : c < ch) (hc2 : c2 < ch)
    (h : f * ch + c = f2 * ch + c2) : f = f2 ∧ c = c2 := by
  have hch : 0 < ch := lt_of_le_of_lt (Nat.zero_le c) hc
  have h1 : (f * ch + c) % ch = c := by
    rw [Nat.add_comm, Nat.add_mul_mod_self_right]; exact Nat.mod_eq_of_lt hc
  have h2 : (f2 * ch + c2) % ch = c2 := by
    rw [Nat.add_comm, Nat.add_mul_mod_self_right]; exact Nat.mod_eq_of_lt hc2
  rw [h, h2] at h1
  refine ⟨?_, h1.symm⟩
  have hmul : f * ch = f2 * ch := by omega
  exact Nat.eq_of_mul_eq_mul_right hch hmul

/-- A valid (channel, frame) pair addresses inside `frames * channels`. -/
theorem interleaved_index_lt {ch fr c f : ℕ} (hc : c < ch) (hf : f < fr) :
    f * ch + c < ch * fr := by
  calc f * ch + c < f * ch + ch := by omega
    _ = (f + 1) * ch := by ring
    _ ≤ fr * ch := Nat.mul_le_mul_right ch hf
    _ = ch * fr := Nat.mul_comm _ _

/-! ### Claims C1 and C10 -/

/-- C1: a `Mixer` holding two sources that each add a constant (`a`, `b`)
to every frame leaves every frame of a zero-initialized output equal to
`a + b`; `Mixer::process` iterates the snapshot in insertion order and never
clears or overwrites the output itself — starting from an arbitrary buffer,
every stored sample is the prior sample plus `a + b`. -/
theorem mixer_two_const_sources_sum (a b : Sample) (ch fr c f : ℕ)
    (hc : c < ch) (hf : f < fr) :
    (((Mixer.new.addSource (constAddSource a)).addSource
        (constAddSource b)).process (AudioBuffer.new ch fr)).rawAt c f = a + b
    ∧ (∀ buf : AudioBuffer,
        ((Mixer.new.addSource (constAddSource a)).addSource
          (constAddSource b)).process buf
        = (constAddSource b).process ((constAddSource a).process buf))
    ∧ (∀ buf : AudioBuffer, ∀ c2 f2 : ℕ,
        f2 * buf.numChannels + c2 < buf.data.length →
        (((Mixer.new.addSource (constAddSource a)).addSource
          (constAddSource b)).process buf).rawAt c2 f2
        = buf.rawAt c2 f2 + (a + b)) := by
  have horder : ∀ buf : AudioBuffer,
      ((Mixer.new.addSource (constAddSource a)).addSource
        (constAddSource b)).process buf
      = (constAddSource b).process ((constAddSource a).process buf) := by
    intro buf
    rfl
  have hadd : ∀ buf : AudioBuffer, ∀ c2 f2 : ℕ,
      f2 * buf.numChannels + c2 < buf.data.length →
      (((Mixer.new.addSource (constAddSource a)).addSource
        (constAddSource b)).process buf).rawAt c2 f2
      = buf.rawAt c2 f2 + (a + b) := by
    intro buf c2 f2 hidx
    rw [horder]
    simp only [constAddSource, AudioBuffer.rawAt]
    rw [getD_map_lt (fun x => x + b) 0 (by simpa using hidx)]
    rw [getD_map_lt (fun x => x + a) 0 (by simpa using hidx)]
    ring
  refine ⟨?_, horder, hadd⟩
  have hlen : f * (AudioBuffer.new ch fr).numChannels + c
      < (AudioBuffer.new ch fr).data.length := by
    simpa [AudioBuffer.new] using interleaved_index_lt hc hf
  rw [hadd (AudioBuffer.new ch fr) c f hlen]
  have hz : (AudioBuffer.new ch fr).rawAt c f = 0 := by
    simp only [AudioBuffer.new, AudioBuffer.rawAt]
    exact getD_replicate_lt 0 0 (interleaved_index_lt hc hf)
  rw [hz, zero_add]

/-- Witness for C1 at `a = 1/2`, `b = 1/3`, a stereo 4-frame zero buffer,
channel 0, frame 1. -/
theorem mixer_two_const_sources_sum_witness :
    ((0 < 2 ∧ 1 < 4) : Prop)
    ∧ (((Mixer.new.addSource (constAddSource (1/2))).addSource
        (constAddSource (1/3))).process (AudioBuffer.new 2 4)).rawAt 0 1
      = 1/2 + 1/3 :=
  ⟨by decide,
   (mixer_two_const_sources_sum (1/2) (1/3) 2 4 0 1 (by decide) (by decide)).1⟩

/-- C10: a mixer whose current source list is empty — newly constructed, or
immediately after `clearSources` — reports `isFinished() == true`
(`std::all_of` over the empty snapshot holds vacuously). -/
theorem mixer_empty_isFinished :
    Mixer.new.isFinished = true
    ∧ ∀ m : Mixer, (m.clearSources).isFinished = true :=
  ⟨rfl, fun _ => rfl⟩

/-! ### Claims C6 and C8 (AudioBuffer access and construction) -/

/-- C6: `AudioBuffer::at(c, f)` returns the element of the interleaved
storage at index `f * numChannels + c` when `c < numChannels` and
`f < numFrames`, and fails with `OutOfRange` otherwise; `at` is a pure read
(the buffer is unchanged in the failing case, as in the `const` source
member). -/
theorem audioBuffer_at_spec (b : AudioBuffer) (c f : ℕ) :
    (c < b.numChannels → f < b.numFrames →
      b.at c f = Except.ok (b.data.getD (f * b.numChannels + c) 0))
    ∧ (b.numChannels ≤ c ∨ b.numFrames ≤ f →
      b.at c f = Except.error BufferError.outOfRange) := by
  constructor
  · intro hc hf
    have hcond : ¬ (b.numChannels ≤ c ∨ b.numFrames ≤ f) := by
      push_neg
      exact ⟨hc, hf⟩
    simp [AudioBuffer.at, hcond]
  · intro h
    simp [AudioBuffer.at, h]

/-- Witness for C6 on a concrete 2-channel, 3-frame zero buffer: the valid
access `(1, 2)` reads storage, the invalid access `(2, 0)` is `OutOfRange`. -/
theorem audioBuffer_at_spec_witness :
    (1 < 2 ∧ 2 < 3 ∧ ((2 : ℕ) ≤ 2 ∨ (3 : ℕ) ≤ 0))
    ∧ (AudioBuffer.new 2 3).at 1 2 = Except.ok 0
    ∧ (AudioBuffer.new 2 3).at 2 0 = Except.error BufferError.outOfRange := by
  refine ⟨by decide, ?_, ?_⟩
  · have h := (audioBuffer_at_spec (AudioBuffer.new 2 3) 1 2).1
      (by decide) (by decide)
    simpa using h
  · exact (audioBuffer_at_spec (AudioBuffer.new 2 3) 2 0).2 (by decide)

/-- C8 counterexample: construction with `channels == 0` is NOT rejected by
the source constructor (src/src/core/audio_buffer.cpp:9-14 performs no
validation): `AudioBuffer(0, 4)` succeeds and yields a zero-channel buffer
whose storage satisfies the length invariant, rather than failing. -/
theorem audioBuffer_new_zero_channels_accepted :
    (AudioBuffer.new 0 4).numChannels = 0
    ∧ (AudioBuffer.new 0 4).numFrames = 4
    ∧ (AudioBuffer.new 0 4).data.length
      = (AudioBuffer.new 0 4).numChannels * (AudioBuffer.new 0 4).numFrames := by
  decide

/-- C8 amended: constructing an `AudioBuffer` with dimensions
`(channels, frames)` allocates zero-filled storage of length
`channels * frames` for every input; `channels == 0` is accepted (no
rejection exists in the constructor) and yields a buffer with empty
storage. -/
theorem audioBuffer_new_spec (channels frames : ℕ) :
    (AudioBuffer.new channels frames).data = List.replicate (channels * frames) 0
    ∧ (AudioBuffer.new channels frames).data.length = channels * frames
    ∧ (AudioBuffer.new channels frames).numChannels = channels
    ∧ (AudioBuffer.new channels frames).numFrames = frames
    ∧ (AudioBuffer.new 0 frames).data.length = 0 := by
  refine ⟨rfl, by simp [AudioBuffer.new], rfl, rfl, by simp [AudioBuffer.new]⟩

/-- C9 counterexample: on a stream that is open but not running (reachable
when `openStream` succeeded and `startStream` failed, or after an external
stop), `stopStream` returns at the `!isRunning()` guard without closing:
the stream remains open, contradicting "after any call to stopStream the
stream is no longer open". -/
theorem stopStream_open_not_running_not_closed :
    stopStream (StreamState.mk true false) = StreamState.mk true false
    ∧ (stopStream (StreamState.mk true false)).isOpen = true := by
  decide

/-- C9 amended: `stopStream` is idempotent and after any call
`isRunning()` is false; if the stream is running it is stopped and closed;
but when the stream is not running — even if still open — `stopStream` is a
no-op and does not close it. -/
theorem stopStream_spec (s : StreamState) :
    stopStream (stopStream s) = stopStream s
    ∧ (stopStream s).isRunning = false
    ∧ (s.isRunning = true → stopStream s = StreamState.mk false false)
    ∧ (s.isRunning = false → stopStream s = s) := by
  cases s with
  | mk o r => cases o <;> cases r <;> decide

/-- Witness for C9 (amended) on a running open stream: it is stopped and
closed. -/
theorem stopStream_spec_witness :
    ((StreamState.mk true true).isRunning = true)
    ∧ stopStream (StreamState.mk true true) = StreamState.mk false false :=
  ⟨rfl, (stopStream_spec (StreamState.mk true true)).2.2.1 rfl⟩

/-! ### Claim C3 (pitch formula) -/

/-- C3: at a valid configuration (sample present, at least 2 frames, both
rates positive) `SamplerVoice::start` sets `step = (nativeRate / engineRate)
* pitchScale` where `pitchScale` is the power factor of `stepFormula`; and
the real-valued formula gives exactly `step = 1` whenever `note ==
rootNote`, `tuneCents == 0` and `nativeRate == engineRate > 0`. -/
theorem samplerVoice_step_one (v : SamplerVoice) (note rootNote : ℤ)
    (velocity tuneCents pitchScale : ℚ) (nativeRate : ℝ)
    (hs : v.sample ≠ none) (hn : 2 ≤ v.numFrames) (hnr : 0 < v.nativeRate)
    (her : 0 < v.engineRate) (hr : (0 : ℝ) < nativeRate) :
    (v.start note velocity rootNote tuneCents pitchScale).step
      = v.nativeRate / v.engineRate * pitchScale
    ∧ SamplerVoice.stepFormula nativeRate nativeRate note note 0 = 1 := by
  constructor
  · have hcond : ¬ (v.sample = none ∨ v.numFrames < 2 ∨ v.nativeRate ≤ 0
        ∨ v.engineRate ≤ 0) := by
      push_neg
      exact ⟨hs, by omega, hnr, her⟩
    simp [SamplerVoice.start, hcond]
  · unfold SamplerVoice.stepFormula
    rw [sub_self, zero_div, Real.rpow_zero, zero_div, Real.rpow_zero,
      mul_one, mul_one, div_self (ne_of_gt hr)]

/-- Witness for C3: the fixture voice (48 kHz both rates, two-frame sample)
has `step = 48000 / 48000 * 1`, and the real formula at note 48 = root 48,
zero cents, equal rates is exactly 1. -/
theorem samplerVoice_step_one_witness :
    ((SamplerVoice.configure {} (some (monoConst 1 2)) 48000 48000).start
        48 1 48 0 1).step
      = (SamplerVoice.configure {} (some (monoConst 1 2)) 48000 48000).nativeRate
        / (SamplerVoice.configure {} (some (monoConst 1 2)) 48000 48000).engineRate
        * 1
    ∧ SamplerVoice.stepFormula 48000 48000 48 48 0 = 1 :=
  samplerVoice_step_one
    (SamplerVoice.configure {} (some (monoConst 1 2)) 48000 48000)
    48 48 1 0 1 48000 (by decide) (by decide) (by decide) (by decide)
    (by norm_num)


/-- Evaluation of the `playingVoice` fixture: configuring and starting at
the root note with equal rates yields an active voice with `step = 1`,
`phase = 0`, unit gain. -/
theorem playingVoice_eval : playingVoice =
    { sample := some (monoConst 1 2)
      srcChannels := 1
      numFrames := 2
      lastIndex := 1
      nativeRate := 48000
      engineRate := 48000
      phase := 0
      step := 1
      active := true
      gain := 1 } := by
  norm_num [playingVoice, SamplerVoice.configure, SamplerVoice.start,
    monoConst]
  exact Option.some_ne_none _

/-! ### Claim C7 (invalid configuration) -/

/-- C7 counterexample: `configure` does not itself clear `active_` — the
validity check lives in `start` (sampler_voice.cpp:26-31), and `configure`
(lines 10-24) only caches fields.  A playing voice reconfigured with a
one-frame sample therefore stays `active == true` (`finished()` is false),
and the next `render` call adds sound (value 1 at channel 0, frame 0 of a
zeroed output), not silence. -/
theorem samplerVoice_configure_invalid_not_inert :
    ((playingVoice.configure (some (monoConst 1 1)) 48000 48000).active = true)
    ∧ ((playingVoice.configure (some (monoConst 1 1)) 48000 48000).finished
        = false)
    ∧ (((playingVoice.configure (some (monoConst 1 1)) 48000 48000).render
        (AudioBuffer.new 1 4) 4).2.rawAt 0 0 = 1) := by
  rw [playingVoice_eval]
  norm_num [monoConst, SamplerVoice.configure, SamplerVoice.finished,
    SamplerVoice.render, SamplerVoice.renderLoop, SamplerVoice.postCheck,
    AudioBuffer.new, AudioBuffer.rawAt, AudioBuffer.rawAddAt, addChannels,
    interpAt, List.replicate]

/-- C7 amended: the inertness check runs at `start`, not at `configure`:
after a `configure` whose cached configuration is unusable (fewer than 2
frames, or a rate ≤ 0), the next `start` leaves the voice inert (`active =
false`, `finished()` true) with no error raised, and `render` on that voice
returns both the voice and the output unchanged (silence).  A
default-constructed voice is inert right after `configure` because `active`
is initialized `false` and `configure` never sets it. -/
theorem samplerVoice_invalid_config_inert (v : SamplerVoice)
    (sample : Option AudioBuffer) (nativeRate engineRate : ℚ)
    (note rootNote : ℤ) (velocity tuneCents pitchScale : ℚ)
    (hbad : (v.configure sample nativeRate engineRate).numFrames < 2
      ∨ nativeRate ≤ 0 ∨ engineRate ≤ 0) :
    ((v.configure sample nativeRate engineRate).start note velocity rootNote
        tuneCents pitchScale).active = false
    ∧ ((v.configure sample nativeRate engineRate).start note velocity rootNote
        tuneCents pitchScale).finished = true
    ∧ (∀ out : AudioBuffer, ∀ n : ℕ,
        (((v.configure sample nativeRate engineRate).start note velocity
          rootNote tuneCents pitchScale).render out n)
        = (((v.configure sample nativeRate engineRate).start note velocity
          rootNote tuneCents pitchScale), out))
    ∧ (SamplerVoice.configure {} sample nativeRate engineRate).active = false := by
  have hrates : (v.configure sample nativeRate engineRate).nativeRate = nativeRate
      ∧ (v.configure sample nativeRate engineRate).engineRate = engineRate := by
    cases sample <;> simp [SamplerVoice.configure]
  have hcond : (v.configure sample nativeRate engineRate).sample = none
      ∨ (v.configure sample nativeRate engineRate).numFrames < 2
      ∨ (v.configure sample nativeRate engineRate).nativeRate ≤ 0
      ∨ (v.configure sample nativeRate engineRate).engineRate ≤ 0 := by
    rcases hbad with h | h | h
    · exact Or.inr (Or.inl h)
    · exact Or.inr (Or.inr (Or.inl (by rw [hrates.1]; exact h)))
    · exact Or.inr (Or.inr (Or.inr (by rw [hrates.2]; exact h)))
  have hstart : (v.configure sample nativeRate engineRate).start note velocity
      rootNote tuneCents pitchScale
      = { v.configure sample nativeRate engineRate with active := false } := by
    simp [SamplerVoice.start, hcond]
  refine ⟨by rw [hstart], by rw [hstart]; rfl, ?_, ?_⟩
  · intro out n
    rw [hstart]
    cases hsmp : (v.configure sample nativeRate engineRate).sample with
    | none => simp [SamplerVoice.render, hsmp]
    | some src => simp [SamplerVoice.render, hsmp]
  · cases sample <;> simp [SamplerVoice.configure]

/-- Witness for C7 (amended) at the fixture voice reconfigured with a
one-frame sample: `start` leaves it inert and `render` is the identity. -/
theorem samplerVoice_invalid_config_inert_witness :
    ((playingVoice.configure (some (monoConst 1 1)) 48000 48000).numFrames < 2
      ∨ (48000 : ℚ) ≤ 0 ∨ (48000 : ℚ) ≤ 0)
    ∧ ((playingVoice.configure (some (monoConst 1 1)) 48000 48000).start
        48 1 48 0 1).finished = true
    ∧ (((playingVoice.configure (some (monoConst 1 1)) 48000 48000).start
        48 1 48 0 1).render (AudioBuffer.new 1 4) 4)
      = (((playingVoice.configure (some (monoConst 1 1)) 48000 48000).start
        48 1 48 0 1), AudioBuffer.new 1 4) := by
  have h := samplerVoice_invalid_config_inert playingVoice
    (some (monoConst 1 1)) 48000 48000 48 48 1 0 1 (by decide)
  exact ⟨by decide, h.2.1, h.2.2.1 (AudioBuffer.new 1 4) 4⟩

/-! ### Claim C5 (noteOn voice allocation) -/

/-- The scan loop of `noteOn` finds no voice when every voice is busy. -/
theorem noteOnScan_none (note : ℤ) (velocity : ℚ) (rootNote : ℤ)
    (tuneCents pitchScale : ℚ) (l : List SamplerVoice)
    (h : ∀ v ∈ l, v.finished = false) :
    noteOnScan note velocity rootNote tuneCents pitchScale l = none := by
  induction l with
  | nil => rfl
  | cons v rest ih =>
    have hv : v.finished = false := h v (List.mem_cons_self v rest)
    have hr := ih (fun w hw => h w (List.mem_cons_of_mem v hw))
    simp [noteOnScan, hv, hr]

/-- The scan loop of `noteOn` starts exactly the first finished voice,
leaving every other voice in place. -/
theorem noteOnScan_first (note : ℤ) (velocity : ℚ) (rootNote : ℤ)
    (tuneCents pitchScale : ℚ) (l : List SamplerVoice) (j : ℕ)
    (hj : j < l.length)
    (hbefore : ∀ k (hk : k < j), (l.get ⟨k, lt_trans hk hj⟩).finished = false)
    (hfin : (l.get ⟨j, hj⟩).finished = true) :
    noteOnScan note velocity rootNote tuneCents pitchScale l
      = some (l.set j ((l.get ⟨j, hj⟩).start note velocity rootNote tuneCents
          pitchScale)) := by
  induction l generalizing j with
  | nil => simp at hj
  | cons v rest ih =>
    cases j with
    | zero =>
      have hv : v.finished = true := hfin
      simp [noteOnScan, hv, List.set]
    | succ k =>
      have hv : v.finished = false := hbefore 0 (Nat.succ_pos k)
      have hjr : k < rest.length := by simpa using hj
      have ih2 := ih k hjr
        (fun m hm => hbefore (m + 1) (by omega))
        hfin
      simp [noteOnScan, hv, ih2, List.set]

/-- C5: `Sampler::noteOn` scans the voice vector in order and reuses the
first voice whose `finished()` is true, starting it with the recorded
`rootNote_` and `tuneCents_` (all other voices untouched, captured by
`List.set`); if no voice is free it steals voice 0, restarting it with the
new note. -/
theorem sampler_noteOn_policy (s : Sampler) (note : ℤ)
    (velocity pitchScale : ℚ) :
    (∀ j : ℕ, ∀ hj : j < s.voices.length,
      (∀ k (hk : k < j), (s.voices.get ⟨k, lt_trans hk hj⟩).finished = false) →
      (s.voices.get ⟨j, hj⟩).finished = true →
      (s.noteOn note velocity pitchScale).voices
        = s.voices.set j ((s.voices.get ⟨j, hj⟩).start note velocity
            s.rootNote s.tuneCents pitchScale))
    ∧ ((∀ v ∈ s.voices, v.finished = false) →
      ∀ v0 rest, s.voices = v0 :: rest →
      (s.noteOn note velocity pitchScale).voices
        = v0.start note velocity s.rootNote s.tuneCents pitchScale :: rest) := by
  constructor
  · intro j hj hbefore hfin
    have h := noteOnScan_first note velocity s.rootNote s.tuneCents pitchScale
      s.voices j hj hbefore hfin
    simp [Sampler.noteOn, h]
  · intro hall v0 rest hv
    have h := noteOnScan_none note velocity s.rootNote s.tuneCents pitchScale
      s.voices hall
    rw [hv] at h
    simp [Sampler.noteOn, hv, h]

/-- Witness for C5 on the two-voice fixture (voice 0 busy, voice 1 free):
`noteOn` starts voice 1 with the recorded root note and tune cents. -/
theorem sampler_noteOn_policy_witness :
    1 < testSampler.voices.length
    ∧ (testSampler.noteOn 50 1 1).voices
      = testSampler.voices.set 1 ((testSampler.voices.get ⟨1, by decide⟩).start
          50 1 testSampler.rootNote testSampler.tuneCents 1) := by
  refine ⟨by decide, ?_⟩
  exact (sampler_noteOn_policy testSampler 50 1 1).1 1 (by decide)
    (by decide) (by decide)

/-! ### Claim C4 (voice termination) -/

/-- After the post-loop check, an active voice always has `phase <
lastIndex`. -/
theorem postCheck_inv (v : SamplerVoice) :
    (v.postCheck).active = true → (v.postCheck).phase
      < ((v.postCheck).lastIndex : ℚ) := by
  unfold SamplerVoice.postCheck
  split
  · intro h
    simp at h
  · intro h
    rename_i hlt
    exact lt_of_not_le hlt

/-- The render loop always leaves the voice consistent: if it is still
active, its phase has not reached `lastIndex`. -/
theorem renderLoop_inv (src : AudioBuffer) :
    ∀ (r : ℕ) (v : SamplerVoice) (out : AudioBuffer) (f : ℕ),
    ((SamplerVoice.renderLoop src v out f r).1.active = true →
      (SamplerVoice.renderLoop src v out f r).1.phase
        < ((SamplerVoice.renderLoop src v out f r).1.lastIndex : ℚ)) := by
  intro r
  induction r with
  | zero =>
    intro v out f
    exact postCheck_inv v
  | succ r ih =>
    intro v out f
    by_cases hlt : v.lastIndex < (Int.floor v.phase).toNat
    · have heq : SamplerVoice.renderLoop src v out f (r + 1)
          = (({ v with active := false }).postCheck, out) := by
        simp [SamplerVoice.renderLoop, hlt]
      rw [heq]
      exact postCheck_inv _
    · have heq : ∃ out2, SamplerVoice.renderLoop src v out f (r + 1)
          = SamplerVoice.renderLoop src { v with phase := v.phase + v.step }
              out2 (f + 1) r := by
        simp only [SamplerVoice.renderLoop, hlt, if_false]
        split
        · exact ⟨_, rfl⟩
        · exact ⟨_, rfl⟩
      obtain ⟨out2, heq⟩ := heq
      rw [heq]
      exact ih _ _ _

/-- A single `render` call preserves the active-voice consistency. -/
theorem render_inv (v : SamplerVoice) (out : AudioBuffer) (n : ℕ)
    (h : v.active = true → v.phase < (v.lastIndex : ℚ)) :
    (v.render out n).1.active = true →
      (v.render out n).1.phase < ((v.render out n).1.lastIndex : ℚ) := by
  cases hs : v.sample with
  | none =>
    simp only [SamplerVoice.render, hs]
    exact h
  | some src =>
    by_cases hg : v.active = false ∨ n = 0
    · simp only [SamplerVoice.render, hs, if_pos hg]
      exact h
    · by_cases hch : out.numChannels = 0 ∨ v.srcChannels = 0
      · simp [SamplerVoice.render, hs, hg, hch]
      · have heq : v.render out n = SamplerVoice.renderLoop src v out 0 n := by
          simp [SamplerVoice.render, hs, hg, hch]
        rw [heq]
        exact renderLoop_inv src n v out 0

/-- A finished voice is left untouched by `render`, and so is the output. -/
theorem render_of_finished (v : SamplerVoice) (out : AudioBuffer) (n : ℕ)
    (h : v.finished = true) : v.render out n = (v, out) := by
  have hact : v.active = false := by
    simpa [SamplerVoice.finished] using h
  unfold SamplerVoice.render
  cases hs : v.sample with
  | none => rfl
  | some src => simp [hact]


/-- The consistency invariant is preserved along any sequence of `render`
calls (each with its own output buffer and frame count). -/
theorem foldl_render_inv (calls : List (AudioBuffer × ℕ)) (w : SamplerVoice)
    (h : w.active = true → w.phase < (w.lastIndex : ℚ)) :
    (calls.foldl (fun u c => (u.render c.1 c.2).1) w).active = true →
      (calls.foldl (fun u c => (u.render c.1 c.2).1) w).phase
        < ((calls.foldl (fun u c => (u.render c.1 c.2).1) w).lastIndex : ℚ) := by
  induction calls generalizing w with
  | nil => exact h
  | cons c rest ih => exact ih _ (render_inv w c.1 c.2 h)

/-- A voice coming out of `configure` + `start` is consistent: if it is
active, its phase (0) is below `lastIndex` (at least 1, since `start`
demands `numFrames ≥ 2` and `configure` caches `lastIndex = numFrames -
1`). -/
theorem start_inv (v : SamplerVoice) (sample : Option AudioBuffer)
    (nativeRate engineRate : ℚ) (note : ℤ) (velocity : ℚ) (rootNote : ℤ)
    (tuneCents pitchScale : ℚ) :
    ((v.configure sample nativeRate engineRate).start note velocity rootNote
        tuneCents pitchScale).active = true →
      ((v.configure sample nativeRate engineRate).start note velocity rootNote
        tuneCents pitchScale).phase
        < (((v.configure sample nativeRate engineRate).start note velocity
            rootNote tuneCents pitchScale).lastIndex : ℚ) := by
  cases sample with
  | none =>
    intro hact
    have : (v.configure none nativeRate engineRate).sample = none := by
      simp [SamplerVoice.configure]
    simp [SamplerVoice.start, this] at hact
  | some smp =>
    unfold SamplerVoice.start
    split
    · intro hact
      simp at hact
    · rename_i hcond
      push_neg at hcond
      intro hact
      have hnf : 2 ≤ (v.configure (some smp) nativeRate engineRate).numFrames :=
        by omega
      have hnf2 : 2 ≤ smp.numFrames := by
        simpa [SamplerVoice.configure] using hnf
      have hli : (v.configure (some smp) nativeRate engineRate).lastIndex
          = smp.numFrames - 1 := by
        simp [SamplerVoice.configure, show smp.numFrames ≠ 0 by omega]
      simp only [hli]
      have : (0 : ℚ) < ((smp.numFrames - 1 : ℕ) : ℚ) := by
        exact_mod_cast Nat.pos_of_ne_zero (by omega)
      simpa using this

/-- C4: a started `SamplerVoice` finishes once the source is exhausted: for
any sequence of `render` calls after `configure` + `start`, whenever the
resulting voice has `phase ≥ lastIndex` it is no longer active
(`finished()` is true) — in particular any render call that drives `phase`
to or past `lastIndex` (or whose loop sees `floor(phase) > lastIndex`)
deactivates the voice — and once finished it stays finished: any further
`render` returns the voice and the output unchanged. -/
theorem samplerVoice_finishes (v : SamplerVoice) (sample : Option AudioBuffer)
    (nativeRate engineRate : ℚ) (note : ℤ) (velocity : ℚ) (rootNote : ℤ)
    (tuneCents pitchScale : ℚ) (calls : List (AudioBuffer × ℕ))
    (vF : SamplerVoice)
    (hvF : vF = calls.foldl (fun w c => (w.render c.1 c.2).1)
      ((v.configure sample nativeRate engineRate).start note velocity rootNote
        tuneCents pitchScale)) :
    ((vF.lastIndex : ℚ) ≤ vF.phase → vF.finished = true)
    ∧ (vF.finished = true → ∀ out n, vF.render out n = (vF, out)) := by
  have hinv : vF.active = true → vF.phase < (vF.lastIndex : ℚ) := by
    subst hvF
    exact foldl_render_inv calls _
      (start_inv v sample nativeRate engineRate note velocity rootNote
        tuneCents pitchScale)
  constructor
  · intro hge
    cases hact : vF.active with
    | false => simp [SamplerVoice.finished, hact]
    | true => exact absurd (hinv hact) (not_lt.mpr hge)
  · intro hfin out n
    exact render_of_finished vF out n hfin

/-- Witness for C4: the fixture voice (two-frame sample, `step = 1`)
rendered once for 8 frames ends with `phase = 2 ≥ lastIndex = 1` and is
finished. -/
theorem samplerVoice_finishes_witness :
    (((playingVoice.render (AudioBuffer.new 1 8) 8).1.lastIndex : ℚ)
      ≤ (playingVoice.render (AudioBuffer.new 1 8) 8).1.phase)
    ∧ (playingVoice.render (AudioBuffer.new 1 8) 8).1.finished = true := by
  have h := samplerVoice_finishes {} (some (monoConst 1 2)) 48000 48000
    48 1 48 0 1 [((AudioBuffer.new 1 8 : AudioBuffer), (8 : ℕ))]
    ((playingVoice.render (AudioBuffer.new 1 8) 8).1) rfl
  have hle : ((playingVoice.render (AudioBuffer.new 1 8) 8).1.lastIndex : ℚ)
      ≤ (playingVoice.render (AudioBuffer.new 1 8) 8).1.phase := by
    rw [playingVoice_eval]
    norm_num [SamplerVoice.render, SamplerVoice.renderLoop,
      SamplerVoice.postCheck, AudioBuffer.new, AudioBuffer.rawAt,
      AudioBuffer.rawAddAt, addChannels, interpAt, monoConst, List.replicate]
  exact ⟨hle, h.1 hle⟩

/-! ### Claim C2 (mono constant-source rendering) -/

/-- Additive strided writes do not change the channel count. -/
theorem rawAddAt_numChannels (b : AudioBuffer) (c f : ℕ) (x : Sample) :
    (b.rawAddAt c f x).numChannels = b.numChannels := rfl

/-- Additive strided writes do not change the storage length. -/
theorem rawAddAt_length (b : AudioBuffer) (c f : ℕ) (x : Sample) :
    (b.rawAddAt c f x).data.length = b.data.length := by
  simp [AudioBuffer.rawAddAt]

/-- The channel loop does not change the channel count. -/
theorem addChannels_numChannels (b : AudioBuffer) (f : ℕ) (x : Sample) :
    ∀ m, (addChannels b f x m).numChannels = b.numChannels := by
  intro m
  induction m with
  | zero => rfl
  | succ k ih =>
    show ((addChannels b f x k).rawAddAt k f x).numChannels = b.numChannels
    rw [rawAddAt_numChannels]
    exact ih

/-- The channel loop does not change the storage length. -/
theorem addChannels_length (b : AudioBuffer) (f : ℕ) (x : Sample) :
    ∀ m, (addChannels b f x m).data.length = b.data.length := by
  intro m
  induction m with
  | zero => rfl
  | succ k ih =>
    show ((addChannels b f x k).rawAddAt k f x).data.length = b.data.length
    rw [rawAddAt_length]
    exact ih

/-- Reading after one additive strided write: only the written
(channel, frame) pair changes, and only when it lies inside the storage. -/
theorem rawAt_rawAddAt (b : AudioBuffer) (c f c2 f2 : ℕ) (x : Sample)
    (hc : c < b.numChannels) (hc2 : c2 < b.numChannels) :
    (b.rawAddAt c f x).rawAt c2 f2
      = b.rawAt c2 f2
        + (if c2 = c ∧ f2 = f ∧ f * b.numChannels + c < b.data.length
           then x else 0) := by
  by_cases hin : f * b.numChannels + c < b.data.length
  · by_cases heq : f2 * b.numChannels + c2 = f * b.numChannels + c
    · obtain ⟨hf2, hc2eq⟩ := interleaved_index_inj hc2 hc heq
      subst hf2
      subst hc2eq
      rw [if_pos ⟨rfl, rfl, hin⟩]
      simp only [AudioBuffer.rawAddAt, AudioBuffer.rawAt]
      exact getD_set_eq 0 _ hin
    · have hne : ¬ (c2 = c ∧ f2 = f ∧ f * b.numChannels + c < b.data.length) := by
        intro hpair
        exact heq (by rw [hpair.1, hpair.2.1])
      rw [if_neg hne, add_zero]
      simp only [AudioBuffer.rawAddAt, AudioBuffer.rawAt]
      exact getD_set_ne 0 _ (fun he => heq he.symm)
  · have hne : ¬ (c2 = c ∧ f2 = f ∧ f * b.numChannels + c < b.data.length) := by
      intro hpair
      exact hin hpair.2.2
    rw [if_neg hne, add_zero]
    simp only [AudioBuffer.rawAddAt, AudioBuffer.rawAt]
    rw [set_of_length_le _ (le_of_not_lt hin)]

/-- Reading after the whole channel loop: channels `0, …, m-1` at the
written frame each gain `x` (when the address is inside the storage), all
other positions are untouched. -/
theorem rawAt_addChannels (b : AudioBuffer) (f : ℕ) (x : Sample) :
    ∀ m : ℕ, m ≤ b.numChannels → ∀ c2 f2 : ℕ, c2 < b.numChannels →
    (addChannels b f x m).rawAt c2 f2
      = b.rawAt c2 f2
        + (if c2 < m ∧ f2 = f ∧ f * b.numChannels + c2 < b.data.length
           then x else 0) := by
  intro m
  induction m with
  | zero =>
    intro hm c2 f2 hc2
    simp [addChannels]
  | succ k ih =>
    intro hm c2 f2 hc2
    have hk : k ≤ b.numChannels := by omega
    have hkc : k < b.numChannels := by omega
    show ((addChannels b f x k).rawAddAt k f x).rawAt c2 f2 = _
    rw [rawAt_rawAddAt (addChannels b f x k) k f c2 f2 x
      (by rw [addChannels_numChannels]; exact hkc)
      (by rw [addChannels_numChannels]; exact hc2)]
    rw [addChannels_numChannels, addChannels_length]
    rw [ih hk c2 f2 hc2]
    by_cases hceq : c2 = k
    · subst hceq
      rw [if_neg (fun hpair => absurd hpair.1 (lt_irrefl c2))]
      by_cases hcond : f2 = f ∧ f * b.numChannels + c2 < b.data.length
      · rw [if_pos ⟨rfl, hcond⟩, if_pos ⟨Nat.lt_succ_self c2, hcond⟩]
        ring
      · rw [if_neg (fun hpair => hcond hpair.2),
          if_neg (fun hpair => hcond hpair.2)]
        ring
    · rw [if_neg (show ¬ (c2 = k ∧ f2 = f ∧ f * b.numChannels + k
          < b.data.length) from fun hpair => hceq hpair.1)]
      by_cases hcond : c2 < k ∧ f2 = f ∧ f * b.numChannels + c2 < b.data.length
      · rw [if_pos hcond, if_pos (show c2 < k + 1 ∧ f2 = f
          ∧ f * b.numChannels + c2 < b.data.length from ⟨by omega, hcond.2⟩)]
        ring
      · rw [if_neg hcond, if_neg (show ¬ (c2 < k + 1 ∧ f2 = f
          ∧ f * b.numChannels + c2 < b.data.length)
          from fun hpair => hcond ⟨by omega, hpair.2⟩)]
        ring

/-- A freshly constructed buffer reads zero everywhere. -/
theorem rawAt_new (ch fr c f : ℕ) : (AudioBuffer.new ch fr).rawAt c f = 0 := by
  simp only [AudioBuffer.new, AudioBuffer.rawAt]
  rcases lt_or_ge (f * ch + c) (ch * fr) with h | h
  · exact getD_replicate_lt 0 0 h
  · exact getD_replicate_ge 0 0 h

/-- Linear interpolation over a constant mono source always yields the
constant, both at the final frame and in the interior. -/
theorem interpAt_monoConst (s : Sample) (n i : ℕ) (frac : ℚ)
    (hn : 1 ≤ n) (hi : i ≤ n - 1) :
    interpAt (monoConst s n) 0 i (n - 1) frac = s := by
  have hraw : ∀ j, j < n → (monoConst s n).rawAt 0 j = s := by
    intro j hj
    simp only [monoConst, AudioBuffer.rawAt, Nat.mul_one, Nat.add_zero]
    exact getD_replicate_lt s 0 hj
  unfold interpAt
  by_cases hie : i = n - 1
  · rw [if_pos hie, hraw i (by omega)]
  · rw [if_neg hie, hraw i (by omega), hraw (i + 1) (by omega)]
    ring

/-- The render loop over a constant mono source with `step = 1` and `phase
= k`: frames `k, …, min (k + r) n - 1` of every output channel each gain
`gain * s`; everything else is untouched. -/
theorem renderLoop_monoConst (s g : ℚ) (n F : ℕ) (hn : 1 ≤ n) :
    ∀ (r k : ℕ) (out : AudioBuffer) (v : SamplerVoice),
    v.srcChannels = 1 → v.lastIndex = n - 1 → v.step = 1 → v.gain = g →
    v.phase = (k : ℚ) → k + r ≤ F →
    out.numChannels ≠ 0 → out.data.length = out.numChannels * F →
    ∀ c2 f2 : ℕ, c2 < out.numChannels → f2 < F →
    ((SamplerVoice.renderLoop (monoConst s n) v out k r).2).rawAt c2 f2
      = out.rawAt c2 f2
        + (if k ≤ f2 ∧ f2 < min (k + r) n then g * s else 0) := by
  intro r
  induction r with
  | zero =>
    intro k out v h1 h2 h3 h4 h5 hkr hch hlen c2 f2 hc2 hf2
    have hcond : ¬ (k ≤ f2 ∧ f2 < min (k + 0) n) := by omega
    rw [show SamplerVoice.renderLoop (monoConst s n) v out k 0
      = (v.postCheck, out) from rfl]
    rw [if_neg hcond, add_zero]
  | succ r ih =>
    intro k out v h1 h2 h3 h4 h5 hkr hch hlen c2 f2 hc2 hf2
    have hfloor : (Int.floor v.phase).toNat = k := by
      rw [h5]
      simp
    by_cases hlt : v.lastIndex < (Int.floor v.phase).toNat
    · have hkn : n ≤ k := by
        rw [hfloor] at hlt
        omega
      have heq : SamplerVoice.renderLoop (monoConst s n) v out k (r + 1)
          = (({ v with active := false }).postCheck, out) := by
        simp [SamplerVoice.renderLoop, hlt]
      rw [heq]
      have hcond : ¬ (k ≤ f2 ∧ f2 < min (k + (r + 1)) n) := by omega
      rw [if_neg hcond, add_zero]
    · have hkle : k ≤ n - 1 := by
        rw [hfloor] at hlt
        omega
      have hlt2 : ¬ (n - 1 < k) := by
        rw [hfloor, h2] at hlt
        exact hlt
      have heq : SamplerVoice.renderLoop (monoConst s n) v out k (r + 1)
          = SamplerVoice.renderLoop (monoConst s n)
              { v with phase := v.phase + v.step }
              (addChannels out k (g * s) out.numChannels) (k + 1) r := by
        simp [SamplerVoice.renderLoop, hlt2, h1, hfloor, h2, h4,
          interpAt_monoConst s n k (v.phase - ((k : ℕ) : ℚ)) hn hkle]
      rw [heq]
      rw [ih (k + 1) (addChannels out k (g * s) out.numChannels)
        { v with phase := v.phase + v.step }
        h1 h2 h3 h4
        (by rw [h5, h3]; push_cast; ring)
        (by omega)
        (by rw [addChannels_numChannels]; exact hch)
        (by rw [addChannels_length, addChannels_numChannels]; exact hlen)
        c2 f2 (by rw [addChannels_numChannels]; exact hc2) hf2]
      rw [rawAt_addChannels out k (g * s) out.numChannels le_rfl c2 f2 hc2]
      have hkF : k < F := by omega
      have hidx : k * out.numChannels + c2 < out.data.length := by
        rw [hlen]
        exact interleaved_index_lt hc2 hkF
      by_cases hf2k : f2 = k
      · rw [if_pos ⟨hc2, hf2k, hidx⟩,
          if_neg (show ¬ (k + 1 ≤ f2 ∧ f2 < min (k + 1 + r) n) by omega),
          if_pos (show k ≤ f2 ∧ f2 < min (k + (r + 1)) n by omega)]
        ring
      · rw [if_neg (fun hpair => hf2k hpair.2.1)]
        by_cases hcond : k + 1 ≤ f2 ∧ f2 < min (k + 1 + r) n
        · rw [if_pos hcond,
            if_pos (show k ≤ f2 ∧ f2 < min (k + (r + 1)) n by omega)]
          ring
        · rw [if_neg hcond,
            if_neg (show ¬ (k ≤ f2 ∧ f2 < min (k + (r + 1)) n) by omega)]
          ring

/-- One `render` call of an active mono-constant voice at `phase = 0`:
every rendered frame (`f2 < min F n`) of every output channel gains
`gain * s` on top of the prior contents (additive); later frames are
untouched. -/
theorem render_monoConst (s g : ℚ) (n F : ℕ) (v : SamplerVoice)
    (out : AudioBuffer) (hsmp : v.sample = some (monoConst s n))
    (h1 : v.srcChannels = 1) (h2 : v.lastIndex = n - 1) (h3 : v.step = 1)
    (h4 : v.gain = g) (h5 : v.phase = 0) (hact : v.active = true)
    (hn : 1 ≤ n) (hch : out.numChannels ≠ 0)
    (hlen : out.data.length = out.numChannels * F) :
    ∀ c2 f2 : ℕ, c2 < out.numChannels → f2 < F →
    ((v.render out F).2).rawAt c2 f2
      = out.rawAt c2 f2 + (if f2 < min F n then g * s else 0) := by
  intro c2 f2 hc2 hf2
  have hF0 : F ≠ 0 := by omega
  have hrender : v.render out F
      = SamplerVoice.renderLoop (monoConst s n) v out 0 F := by
    simp [SamplerVoice.render, hsmp, hact, hF0, hch, h1]
  rw [hrender]
  rw [renderLoop_monoConst s g n F hn F 0 out v h1 h2 h3 h4
    (by rw [h5]; norm_num) (by omega) hch hlen c2 f2 hc2 hf2]
  simp [Nat.zero_le, true_and, Nat.zero_add]

/-- C2: a `SamplerVoice` configured with an `n`-frame mono source of
constant value `s` and started so that `step == 1` (equal rates, unit pitch
scale) and `gain == g`, rendered into a zero-initialized `outCh × F` output
buffer, adds `g * s` to every output channel at every rendered frame
(`f2 < min F n`) — the mono interpolated value is duplicated to all output
channels, additively. -/
theorem samplerVoice_mono_const_render (s g r0 : ℚ) (n outCh F : ℕ)
    (note : ℤ) (hr : 0 < r0) (hn : 2 ≤ n) (hg0 : 0 ≤ g) (hg1 : g ≤ 1)
    (hch : 0 < outCh) :
    ∀ c2 f2 : ℕ, c2 < outCh → f2 < min F n →
    ((((SamplerVoice.configure {} (some (monoConst s n)) r0 r0).start note g
        note 0 1).render (AudioBuffer.new outCh F) F).2).rawAt c2 f2
      = g * s := by
  intro c2 f2 hc2 hf2
  have hconf : SamplerVoice.configure {} (some (monoConst s n)) r0 r0
      = { sample := some (monoConst s n)
          srcChannels := 1
          numFrames := n
          lastIndex := n - 1
          nativeRate := r0
          engineRate := r0
          phase := 0
          step := 1
          active := false
          gain := 0 } := by
    simp [SamplerVoice.configure, monoConst, show n ≠ 0 by omega]
  have hstep : r0 / r0 * 1 = 1 := by
    field_simp
  have hv1 : (SamplerVoice.configure {} (some (monoConst s n)) r0 r0).start
      note g note 0 1
      = { sample := some (monoConst s n)
          srcChannels := 1
          numFrames := n
          lastIndex := n - 1
          nativeRate := r0
          engineRate := r0
          phase := 0
          step := 1
          active := true
          gain := g } := by
    rw [hconf]
    simp [SamplerVoice.start, show ¬ (n < 2) by omega, not_le.mpr hr,
      hstep, not_lt.mpr hg0, not_lt.mpr hg1]
  rw [hv1]
  rw [render_monoConst s g n F _ (AudioBuffer.new outCh F) rfl rfl rfl rfl
    rfl rfl rfl (by omega) (by simp [AudioBuffer.new]; omega)
    (by simp [AudioBuffer.new])
    c2 f2 (by simpa [AudioBuffer.new] using hc2) (by omega)]
  rw [rawAt_new, if_pos hf2, zero_add]

/-- Witness for C2: a 2-frame constant `1/2` mono source, unit velocity,
48 kHz rates, stereo 3-frame zero output; channel 1, frame 1 reads
`1 * (1/2)`. -/
theorem samplerVoice_mono_const_render_witness :
    ((0 : ℚ) < 48000 ∧ 1 < 2 ∧ (1 : ℕ) < min 3 2)
    ∧ ((((SamplerVoice.configure {} (some (monoConst (1/2) 2)) 48000
        48000).start 48 1 48 0 1).render (AudioBuffer.new 2 3) 3).2).rawAt 1 1
      = 1 * (1/2) :=
  ⟨⟨by norm_num, by norm_num, by norm_num⟩,
   samplerVoice_mono_const_render (1/2) 1 48000 2 2 3 48 (by norm_num)
     (by norm_num) (by norm_num) (by norm_num) (by norm_num) 1 1
     (by norm_num) (by norm_num)⟩

end Pipsqueak
